import Mathlib

/-!
# Verification of the HawaTechnologies/launcher game-launcher daemon

A shallow embedding, in Lean 4, of the launcher's core components:

* the Yes/But save-filter evaluation engine (`src/launcher/yesbut.py`),
* the save synchronization engine (`src/launcher/saves.py`),
* the control endpoint's request validation and session-lock handling
  (`src/launcher/main_server.py`),
* the native launch path (`src/launcher/run_native.py`), and
* the hotkey watchdog tick loop (`src/launcher/hotkeys.py`).

Filesystems are modelled as finite association lists from absolute paths
(lists of name components) to nodes (file, directory, or symlink), so that
`os.path.realpath` / `Path.resolve` becomes an explicit fuelled resolver
that follows symlinks and processes `..` components against the already
resolved prefix, exactly as the POSIX realpath algorithm does.
-/

namespace Launcher

/-- A single path component (a file or directory name). -/
abbrev Name := String

/-- An absolute path, as the list of its components from the filesystem
root.  The root itself is `[]`. -/
abbrev AbsPath := List Name

/-- A filesystem node: a regular file, a directory, or a symbolic link
with an absolute target. -/
inductive Node where
  | file
  | dir
  | symlink (target : AbsPath)
deriving DecidableEq, Repr

/-- Whether a node is a symbolic link. -/
def Node.isLink : Node → Bool
  | .symlink _ => true
  | _ => false

/-- A filesystem: a finite association list from absolute paths to nodes.
Concrete filesystems list each existing path exactly once. -/
structure FS where
  entries : List (AbsPath × Node)
deriving DecidableEq, Repr

/-- Look up the node stored at a path (syntactically; no symlink
following). -/
def FS.lookup (fs : FS) (p : AbsPath) : Option Node :=
  (fs.entries.find? (fun e => e.1 = p)).map (·.2)

/-- The filesystem contains no symbolic links. -/
def FS.symlinkFree (fs : FS) : Prop :=
  ∀ e ∈ fs.entries, e.2.isLink = false

instance (fs : FS) : Decidable fs.symlinkFree := by
  unfold FS.symlinkFree; infer_instance

/-- A component name is ordinary: not one of the special names `..` and
`.` that the resolver treats as navigation. -/
def goodName (c : Name) : Prop := c ≠ ".." ∧ c ≠ "."

instance (c : Name) : Decidable (goodName c) := by
  unfold goodName; infer_instance

/-- Every component of every entry key is an ordinary name (true of any
real directory tree: `..` and `.` are never directory entries). -/
def FS.goodKeys (fs : FS) : Prop :=
  ∀ e ∈ fs.entries, ∀ c ∈ e.1, goodName c

instance (fs : FS) : Decidable fs.goodKeys := by
  unfold FS.goodKeys; infer_instance

/-- One pass of the POSIX realpath algorithm: `acc` is the already
resolved prefix, the remaining components are processed left to right.
`..` drops the last resolved component (at the root it stays at the
root), `.` is skipped, a symlink component restarts resolution at the
link target before continuing.  `fuel` bounds symlink chains; `none`
models a lookup loop error. -/
def resolveAux (fs : FS) : Nat → AbsPath → AbsPath → Option AbsPath
  | 0, _, _ => none
  | _ + 1, acc, [] => some acc
  | fuel + 1, acc, c :: rest =>
    if c = ".." then resolveAux fs fuel acc.dropLast rest
    else if c = "." then resolveAux fs fuel acc rest
    else
      match fs.lookup (acc ++ [c]) with
      | some (.symlink t) =>
        match resolveAux fs fuel [] t with
        | none => none
        | some acc2 => resolveAux fs fuel acc2 rest
      | _ => resolveAux fs fuel (acc ++ [c]) rest

/-- Fuel that always suffices when no symlink chain longer than the
number of entries is followed from each component. -/
def FS.fuel (fs : FS) (p : AbsPath) : Nat :=
  p.length + (fs.entries.length + 1) * (fs.entries.length + p.length + 1) + 1

/-- Model of `os.path.realpath` / `Path.resolve()` (non-strict): resolve symlinks
and `..`/`.` components.  `none` only on symlink loops. -/
def FS.resolve (fs : FS) (p : AbsPath) : Option AbsPath :=
  resolveAux fs (fs.fuel p) [] p

/-- Model of `Path.resolve(strict=True)`: as `resolve`, but the result must
exist; a missing target raises `FileNotFoundError`, modelled as `none`. -/
def FS.resolveStrict (fs : FS) (p : AbsPath) : Option AbsPath :=
  match fs.resolve p with
  | none => none
  | some r => if (fs.lookup r).isSome then some r else none

/-- The node a path finally denotes, following symlinks (`os.stat`). -/
def FS.nodeAt (fs : FS) (p : AbsPath) : Option Node :=
  match fs.resolve p with
  | none => none
  | some r => fs.lookup r

/-- Model of `Path.exists()` / `os.path.exists`: follows symlinks. -/
def FS.pathExists (fs : FS) (p : AbsPath) : Bool :=
  (fs.nodeAt p).isSome

/-- Model of `Path.is_dir()` / `os.path.isdir`: follows symlinks. -/
def FS.isDirAt (fs : FS) (p : AbsPath) : Bool :=
  fs.nodeAt p = some .dir

/-- Model of `os.path.isfile`: follows symlinks. -/
def FS.isFileAt (fs : FS) (p : AbsPath) : Bool :=
  fs.nodeAt p = some .file

/-- Pure lexical normalization: what `resolve` computes on a
symlink-free filesystem (each `..` pops the resolved prefix, `.` is
dropped, ordinary components are appended). -/
def normFrom (acc : AbsPath) : AbsPath → AbsPath
  | [] => acc
  | c :: rest =>
    if c = ".." then normFrom acc.dropLast rest
    else if c = "." then normFrom acc rest
    else normFrom (acc ++ [c]) rest

/-! ## Glob pattern matching

`fnmatch`-style matching of one pattern segment against one name
(`*` matches any run of characters, `?` any single character; character
classes are not used by the launcher and are treated as literals), and
segment-list matching where a `**` segment matches any number of
segments (`glob.iglob(..., recursive=True)`; a trailing `**` also
matches the base path itself).  `PurePosixPath.full_match` differs from
`iglob` only in that its trailing `**` needs at least one further
segment; since `_matches_any_but` always tests the exact pattern
alongside the `/**`-suffixed one, the disjunction it computes is
unchanged by modelling `**` uniformly as zero-or-more segments. -/

/-- Match one glob segment (as characters) against one name: `*`
matches any run of characters (some suffix of the remainder matches the
rest of the pattern), `?` any single character. -/
def segMatch : List Char → List Char → Bool
  | [], cs => cs.isEmpty
  | '*' :: ps, cs => cs.tails.any fun t => segMatch ps t
  | '?' :: ps, cs =>
    match cs with
    | [] => false
    | _ :: cs' => segMatch ps cs'
  | p :: ps, cs =>
    match cs with
    | [] => false
    | c :: cs' => (p = c) && segMatch ps cs'

/-- Python `str.split(sep)` over the character list (`"".split(sep)`
gives `[""]`). -/
def splitCharsOn (sep : Char) : List Char → List (List Char)
  | [] => [[]]
  | c :: cs =>
    match splitCharsOn sep cs with
    | [] => [[c]]
    | g :: gs => if c = sep then [] :: g :: gs else (c :: g) :: gs

/-- Python `s.split("/")`. -/
def splitSlash (s : String) : List String :=
  (splitCharsOn '/' s.data).map fun g => ⟨g⟩

/-- Python `s.lstrip("/")`. -/
def lstripSlash (s : String) : String :=
  ⟨s.data.dropWhile (· = '/')⟩

/-- Python `s.strip()`: drop whitespace from both ends. -/
def pyStrip (s : String) : String :=
  ⟨((s.data.dropWhile Char.isWhitespace).reverse.dropWhile
      Char.isWhitespace).reverse⟩

/-- Split a pattern string on `/` into segments, dropping empty and `.`
segments as `pathlib` does when parsing a path or pattern. -/
def patSegsOf (pat : String) : List String :=
  (splitSlash pat).filter (fun s => s ≠ "" && s ≠ ".")

/-- Match a list of pattern segments against a list of path components;
`**` matches zero or more components (some suffix of the remaining
components matches the rest of the pattern). -/
def globMatchSegs : List String → List Name → Bool
  | [], ns => ns.isEmpty
  | p :: ps, ns =>
    if p = "**" then ns.tails.any fun t => globMatchSegs ps t
    else
      match ns with
      | [] => false
      | n :: ns' => segMatch p.data n.data && globMatchSegs ps ns'

/-! ## The Yes/But evaluation engine (`src/launcher/yesbut.py`) -/

/-- One Yes/But clause: an inclusion glob and a list of exclusion
globs. -/
structure Clause where
  yes : String
  but : List String
deriving DecidableEq, Repr

/-- Model of `glob.iglob(abs_glob, recursive=True)` where
`abs_glob = (reference_dir / yes_pattern.lstrip("/")).as_posix()`:
the existing paths under `refDir` whose remainder matches the pattern
segments.  (`refDir` is assumed already resolved, as in the source,
where `enumerate` resolves it before use.) -/
def globYes (fs : FS) (refDir : AbsPath) (yesPat : String) : List AbsPath :=
  let segs := patSegsOf (lstripSlash yesPat)
  fs.entries.filterMap fun e =>
    if refDir.isPrefixOf e.1 && globMatchSegs segs (e.1.drop refDir.length)
    then some e.1 else none

/-- Model of `_iter_yes_roots`: resolve the YES glob relative to `refDir`,
resolve each match strictly (a vanished match is skipped), and silently
drop any match whose resolved real path is not contained in `refDir`
(`p.relative_to(reference_dir)` succeeds exactly when `refDir` is a
prefix of `p`). -/
def iterYesRoots (fs : FS) (refDir : AbsPath) (yesPat : String) : List AbsPath :=
  (globYes fs refDir yesPat).filterMap fun s =>
    match fs.resolveStrict s with
    | none => none
    | some p => if refDir.isPrefixOf p then some p else none

/-- The entry names directly inside the directory at (already resolved)
path `rp`. -/
def FS.entriesOfDir (fs : FS) (rp : AbsPath) : List Name :=
  fs.entries.filterMap fun e =>
    if e.1.length = rp.length + 1 && rp.isPrefixOf e.1
    then e.1.getLast? else none

/-- Model of `os.walk(p)` as used by `_walk_tree_including_self`: per directory,
first the sub-directory names (anything that stats as a directory,
symlinks included), then the file names, then the recursion — which
descends only into real sub-directories (`followlinks=False`). -/
def FS.walkAux (fs : FS) : Nat → AbsPath → List AbsPath
  | 0, _ => []
  | fuel + 1, p =>
    match fs.resolve p with
    | none => []
    | some rp =>
      let names := fs.entriesOfDir rp
      let dirNames := names.filter fun n => fs.isDirAt (rp ++ [n])
      let fileNames := names.filter fun n => !fs.isDirAt (rp ++ [n])
      dirNames.map (fun n => p ++ [n]) ++ fileNames.map (fun n => p ++ [n]) ++
        (dirNames.filter fun n => !((fs.lookup (rp ++ [n])).getD .dir).isLink).flatMap
          fun n => fs.walkAux fuel (p ++ [n])

/-- Model of `_walk_tree_including_self`: the root, then (when the root is a
directory) every descendant directory and file. -/
def walkTreeIncludingSelf (fs : FS) (root : AbsPath) : List AbsPath :=
  root :: (if fs.isDirAt root then fs.walkAux (fs.entries.length + 1) root else [])

/-- Model of `_posix_relpath_under`: `p.resolve().relative_to(base)` for an
already resolved `base`, or `none` when `p` is not under `base`. -/
def posixRelpathUnder (fs : FS) (base p : AbsPath) : Option (List Name) :=
  match fs.resolve p with
  | none => none
  | some rp => if base.isPrefixOf rp then some (rp.drop base.length) else none

/-- Model of `_matches_any_but`: the candidate's path relative to `refDir` is
tested against each BUT pattern, both as given (`lstrip("/")`) and with
`"/**"` appended (`strip("/") + "/**"`); either match excludes the
candidate.  A candidate not under `refDir` is never excluded. -/
def matchesAnyBut (fs : FS) (refDir cand : AbsPath) (butPats : List String) : Bool :=
  match posixRelpathUnder fs refDir cand with
  | none => false
  | some rel =>
    butPats.any fun bp =>
      globMatchSegs (patSegsOf bp) rel ||
        globMatchSegs (patSegsOf bp ++ ["**"]) rel

/-- The candidates one clause contributes, before deduplication: walk
each admitted yes-root, keep candidates that still exist and survive the
clause's BUT patterns. -/
def clauseCandidates (fs : FS) (refDir : AbsPath) (cl : Clause) : List AbsPath :=
  (iterYesRoots fs refDir cl.yes).flatMap fun yesRoot =>
    (walkTreeIncludingSelf fs yesRoot).filter fun cand =>
      fs.pathExists cand && !matchesAnyBut fs refDir cand cl.but

/-- The deduplicating tail of `enumerate`: resolve each candidate, skip
it when its resolved real path was already seen, otherwise yield the
resolved path (first occurrence wins). -/
def dedupResolve (fs : FS) (seen : List AbsPath) : List AbsPath → List AbsPath
  | [] => []
  | c :: cs =>
    match fs.resolve c with
    | none => dedupResolve fs seen cs
    | some cr =>
      if cr ∈ seen then dedupResolve fs seen cs
      else cr :: dedupResolve fs (cr :: seen) cs

/-- Model of `enumerate(clauses, reference_dir)`: resolve the reference
directory, gather each clause's surviving candidates in order, and yield
the resolved real paths deduplicated across clauses. -/
def enumerate (fs : FS) (referenceDir : AbsPath) (clauses : List Clause) : List AbsPath :=
  match fs.resolve referenceDir with
  | none => []
  | some refDir =>
    dedupResolve fs [] (clauses.flatMap (clauseCandidates fs refDir))

/-! ## The save synchronization engine (`src/launcher/saves.py`)

A directory's contents are modelled as a finite map from relative file
paths to file data; intermediate directories are implied by the keys.
Shell copies (`cp -r`) move content, so they act as map operations. -/

/-- File contents. -/
abbrev FileData := String

/-- The contents of a directory tree: relative file path to data. -/
abbrev Dir := List (List Name × FileData)

/-- Find the data stored at a relative path. -/
def Dir.find? (d : Dir) (p : List Name) : Option FileData :=
  (List.find? (fun e => e.1 = p) d).map (·.2)

/-- All proper prefixes of a path (the implied parent directories,
excluding the path itself but including the root `[]`). -/
def properPrefixes (p : List Name) : List (List Name) :=
  (List.range p.length).map fun i => p.take i

/-- View a directory's contents as a filesystem rooted at `[]`: the
implied directories (deduplicated), then the files.  No symlinks. -/
def dirToFS (d : Dir) : FS :=
  ⟨((d.flatMap fun e => properPrefixes e.1).dedup).map (fun q => (q, Node.dir)) ++
    d.map fun e => (e.1, Node.file)⟩

/-- Overwrite `base` with every entry of `upd` (entries of `upd` win;
entries of `base` not shadowed are kept). -/
def Dir.overrideWith (base upd : Dir) : Dir :=
  upd ++ base.filter fun e => (Dir.find? upd e.1).isNone

/-- The entries of `d` lying at or under the relative path `rel`. -/
def Dir.filesUnder (d : Dir) (rel : List Name) : Dir :=
  d.filter fun e => rel.isPrefixOf e.1

/-- Model of `_copy(from_dir=src, to_dir=dst, what=rel)`: a directory is merged
recursively (`shutil.copytree(..., dirs_exist_ok=True)`, same-named
files overwritten, destination-only files kept); a file is copied with
overwrite.  Both cases copy exactly the source entries at or under
`rel` over the destination. -/
def copyMerge (dst src : Dir) (rel : List Name) : Dir :=
  dst.overrideWith (src.filesUnder rel)

/-- The relative paths the filtered-store loop copies: `enumerate` over
the scratch directory (viewed as the reference root), each element made
relative to the scratch root, empty relative paths skipped. -/
def storeSelectedRels (scratch : Dir) (saveFilters : List Clause) : List (List Name) :=
  (enumerate (dirToFS scratch) [] saveFilters).filterMap fun e =>
    if e = [] then none else some e

/-- Model of `store_dragonshark_save`: first the filtered merge loop copies each
selected path from the scratch directory into the durable directory;
then the staging chain `cp -r scratch/* ~tmp && rm -rf durable && mv
~tmp durable` runs unconditionally — when the scratch directory is
empty the initial `cp` fails and the chain stops, leaving the merged
durable contents; otherwise the durable directory is replaced by the
full scratch contents. -/
def storeDragonsharkSave (scratch durable : Dir) (saveFilters : List Clause) : Dir :=
  let merged := (storeSelectedRels scratch saveFilters).foldl
    (fun acc rel => copyMerge acc scratch rel) durable
  if scratch = [] then merged else scratch

/-- Model of `load_dragonshark_save`: clear the scratch directory
(`rm -rf scratch/*`), then `cp -r durable/* scratch` — which fails,
leaving the scratch empty, when the durable directory is empty.
Returns the new scratch contents. -/
def loadDragonsharkSave (durable : Dir) : Dir :=
  if durable = [] then [] else durable

/-! ## The control endpoint (`src/launcher/main_server.py`) -/

/-- A response hint written back on the control channel, or a
successful dispatch (carrying the computed real relative command
path). -/
inductive Resp where
  | requestFormat
  | directoryInvalid
  | commandInvalid
  | commandInvalidFormat
  | gameAlreadyRunning
  | launched (realRelativeCommandPath : List Name)
deriving DecidableEq, Repr

/-- A parsed launch request.  `save_filters` is `none` when the JSON
field was `null`. -/
structure LaunchRequest where
  package : String
  app : String
  directory : String
  command : String
  save_filters : Option (List Clause)
deriving Repr

/-- Parse a path string into components (empty components collapse, as
`os.path.realpath` does with repeated separators). -/
def toPath (s : String) : List Name :=
  (splitSlash s).filter (· ≠ "")

/-- The containment test of `handle`:
`real_command_path.startswith(real_directory_path.rstrip("/") + "/")`.
For the root directory the stripped prefix is just `"/"`, which every
absolute path starts with; otherwise the test holds exactly when the
resolved directory is a strict component-wise prefix of the resolved
command path. -/
def containsCheck (realDir realCmd : AbsPath) : Bool :=
  realDir = [] || (realDir ≠ realCmd && realDir.isPrefixOf realCmd)

/-- Model of `GameLauncherRequestHandler.handle` up to dispatch: blank-check the
four string fields (`request:format`), check the directory exists
(`directory:invalid`), resolve real paths and require strict containment
(`command:invalid`), require a regular file (`command:invalid-format`),
then dispatch with the real relative command path. -/
def handle (fs : FS) (req : LaunchRequest) : Resp :=
  if pyStrip req.directory = "" || pyStrip req.app = "" ||
      pyStrip req.package = "" || pyStrip req.command = "" then .requestFormat
  else
    let dirP := toPath (pyStrip req.directory)
    if !fs.isDirAt dirP then .directoryInvalid
    else
      let realCmd := (fs.resolve (dirP ++ toPath (pyStrip req.command))).getD []
      let realDir := (fs.resolve dirP).getD []
      if !containsCheck realDir realCmd then .commandInvalid
      else if !fs.isFileAt realCmd then .commandInvalidFormat
      else .launched (realCmd.drop realDir.length)

/-! ## The native launch path (`src/launcher/run_native.py`) and the
session lock (`_launch_executable`)

The session state tracked here is the server's `locked` boolean and the
number of times the release callback has run. -/

/-- Session-lock state: the server's `locked` flag and how many times
the `_release` callback has been invoked. -/
structure LockState where
  locked : Bool
  releases : Nat
deriving DecidableEq, Repr

/-- Model of `save_filters or []`: Python `or` replaces any falsy value (`None`
or the empty list) with `[]`. -/
def normalizeFilters : Option (List Clause) → List Clause
  | none => []
  | some fl => if fl = [] then [] else fl

/-- Model of `run_native.run_game`, sequentialized: load the save, try
`ensure_executable` — on failure log and return **without** invoking
`on_end` — otherwise spawn, and (in the completion waiter) wait,
clean up, store the save, and invoke `on_end` exactly once. -/
def runGameNative (ensureOk : Bool) (onEnd : LockState → LockState)
    (st : LockState) : LockState :=
  if !ensureOk then st
  else onEnd st

/-- Model of `_launch_executable` for a native target: if `locked`, respond
`command:game-already-running`; otherwise set `locked := True` and run
the game with a release callback that clears the lock. -/
def launchExecutable (ensureOk : Bool) (st : LockState) :
    LockState × Option Resp :=
  if st.locked then (st, some .gameAlreadyRunning)
  else
    let st1 : LockState := { st with locked := true }
    (runGameNative ensureOk
      (fun s => { s with locked := false, releases := s.releases + 1 }) st1, none)

/-! ## The admission race (`_launch_executable`, two handler threads)

`ThreadingUnixStreamServer` runs each connection in its own thread; the
lock test (`if self.server.locked:`) and the lock set
(`self.server.locked = True`) are two separate interleavable steps. -/

/-- A handler thread's program counter: about to read the lock, about
to write it (having observed it unlocked), finished having spawned a
game, or finished having sent `command:game-already-running`. -/
inductive TPc where
  | atRead
  | atWrite
  | spawned
  | rejected
deriving DecidableEq, Repr

/-- Shared state of two concurrent handler threads. -/
structure RaceState where
  locked : Bool
  pc1 : TPc
  pc2 : TPc
  spawns : Nat
  rejections : Nat
deriving DecidableEq, Repr

/-- One step of one thread: reading the lock either rejects (when
locked) or moves to the write; the write sets the lock and spawns. -/
def stepThread (pc : TPc) (locked : Bool) : TPc × Bool × Nat × Nat :=
  match pc with
  | .atRead => if locked then (.rejected, locked, 0, 1) else (.atWrite, locked, 0, 0)
  | .atWrite => (.spawned, true, 1, 0)
  | pc => (pc, locked, 0, 0)

/-- Run a schedule: `true` steps thread 1, `false` steps thread 2. -/
def runSched (st : RaceState) : List Bool → RaceState
  | [] => st
  | t :: rest =>
    let (pc, lk, sp, rj) :=
      if t then stepThread st.pc1 st.locked else stepThread st.pc2 st.locked
    let st' : RaceState :=
      if t then { st with pc1 := pc, locked := lk, spawns := st.spawns + sp,
                          rejections := st.rejections + rj }
      else { st with pc2 := pc, locked := lk, spawns := st.spawns + sp,
                     rejections := st.rejections + rj }
    runSched st' rest

/-- Both handler threads poised at the lock read, lock idle. -/
def raceInit : RaceState :=
  { locked := false, pc1 := .atRead, pc2 := .atRead, spawns := 0, rejections := 0 }

/-! ## The hotkey watchdog (`src/launcher/hotkeys.py`) -/

/-- Constant `TICKS_PER_SECOND = 2`. -/
def TICKS_PER_SECOND : Nat := 2

/-- Constant `HOTKEY_HOLD_CHECK_TIME = 3 * TICKS_PER_SECOND`. -/
def HOTKEY_HOLD_CHECK_TIME : Nat := 3 * TICKS_PER_SECOND

/-- The per-controller consecutive-hold counters (`pads`), in insertion
order as a Python dict. -/
abbrev Pads := List (String × Nat)

/-- Update an association list at a key, keeping insertion order;
a new key is appended (Python dict assignment). -/
def setPad (pads : Pads) (k : String) (v : Nat) : Pads :=
  match pads with
  | [] => [(k, v)]
  | e :: rest => if e.1 = k then (k, v) :: rest else e :: setPad rest k v

/-- The inner `for holding_pad in holding_pads` loop: increment each
holding pad's counter (a new pad starts at 1); as soon as one reaches
`HOTKEY_HOLD_CHECK_TIME`, invoke the kill callback and return
(`Sum.inr`).  Otherwise continue with the updated counters
(`Sum.inl`). -/
def processHolding (pads : Pads) : List String → Pads ⊕ Pads
  | [] => .inl pads
  | h :: hs =>
    let v := ((pads.find? (fun e => e.1 = h)).map (·.2)).getD 0 + 1
    let pads' := setPad pads h v
    if HOTKEY_HOLD_CHECK_TIME ≤ v then .inr pads'
    else processHolding pads' hs

/-- One tick of the watchdog body: process the holding pads; if no kill
fired, drop every previously tracked pad that is not holding this tick
(`pads.pop(key)` for the keys not discarded). -/
def hotkeyStep (pads : Pads) (holding : List String) : Pads ⊕ Pads :=
  match processHolding pads holding with
  | .inr killed => .inr killed
  | .inl pads' => .inl (pads'.filter fun e => e.1 ∈ holding)

/-- How a run of the watchdog loop ended. -/
inductive HkExit where
  | killed
  | liveFalse
  | traceEnd
deriving DecidableEq, Repr

/-- The watchdog tick loop over a finite observation trace; each tick
supplies the liveness predicate's value and the set of controllers
holding both designated buttons.  Returns how the loop ended, the
number of kill invocations, and the final counters.  The loop checks
liveness first, then polls; on a kill it invokes the callback once and
returns. -/
def hotkeyLoop (pads : Pads) : List (Bool × List String) → HkExit × Nat × Pads
  | [] => (.traceEnd, 0, pads)
  | (alive, holding) :: rest =>
    if !alive then (.liveFalse, 0, pads)
    else
      match hotkeyStep pads holding with
      | .inr killed => (.killed, 1, killed)
      | .inl pads' => hotkeyLoop pads' rest

/-! ## Resolver lemmas -/

/-- On a symlink-free filesystem no lookup yields a symlink. -/
theorem lookup_not_symlink (fs : FS) (h : fs.symlinkFree) (q t : AbsPath) :
    fs.lookup q ≠ some (.symlink t) := by
  intro hq
  unfold FS.lookup at hq
  rw [Option.map_eq_some'] at hq
  obtain ⟨e, he, h2⟩ := hq
  have hmem := List.mem_of_find?_eq_some he
  have := h e hmem
  rw [h2] at this
  simp [Node.isLink] at this

/-- On a symlink-free filesystem the resolver is pure lexical
normalization. -/
theorem resolveAux_symlinkFree (fs : FS) (h : fs.symlinkFree) (p : AbsPath) :
    ∀ fuel acc, p.length < fuel →
      resolveAux fs fuel acc p = some (normFrom acc p) := by
  induction p with
  | nil =>
    intro fuel acc hf
    cases fuel with
    | zero => omega
    | succ f => rfl
  | cons c rest ih =>
    intro fuel acc hf
    cases fuel with
    | zero => simp at hf
    | succ f =>
      have hr : rest.length < f := by simp at hf; omega
      simp only [resolveAux, normFrom]
      by_cases h1 : c = ".."
      · rw [if_pos h1, if_pos h1]
        exact ih f acc.dropLast hr
      · rw [if_neg h1, if_neg h1]
        by_cases h2 : c = "."
        · rw [if_pos h2, if_pos h2]
          exact ih f acc hr
        · rw [if_neg h2, if_neg h2]
          cases hl : fs.lookup (acc ++ [c]) with
          | none => exact ih f (acc ++ [c]) hr
          | some node =>
            cases node with
            | file => exact ih f (acc ++ [c]) hr
            | dir => exact ih f (acc ++ [c]) hr
            | symlink t => exact absurd hl (lookup_not_symlink fs h _ t)

/-- On a symlink-free filesystem `resolve` is `normFrom []`. -/
theorem resolve_symlinkFree (fs : FS) (h : fs.symlinkFree) (p : AbsPath) :
    fs.resolve p = some (normFrom [] p) := by
  apply resolveAux_symlinkFree fs h p _ [] ?_
  unfold FS.fuel
  generalize (fs.entries.length + 1) * (fs.entries.length + p.length + 1) = X
  omega

/-- Normalization processes an appended path after the first part. -/
theorem normFrom_append (p : AbsPath) :
    ∀ (acc q : AbsPath), normFrom acc (p ++ q) = normFrom (normFrom acc p) q := by
  induction p with
  | nil => intro acc q; rfl
  | cons c rest ih =>
    intro acc q
    simp only [List.cons_append, normFrom]
    by_cases h1 : c = ".."
    · rw [if_pos h1, if_pos h1]; exact ih _ _
    · rw [if_neg h1, if_neg h1]
      by_cases h2 : c = "."
      · rw [if_pos h2, if_pos h2]; exact ih _ _
      · rw [if_neg h2, if_neg h2]; exact ih _ _

/-- Normalization appends ordinary components unchanged. -/
theorem normFrom_good (p : AbsPath) :
    ∀ acc, (∀ c ∈ p, goodName c) → normFrom acc p = acc ++ p := by
  induction p with
  | nil => intro acc _; simp [normFrom]
  | cons c rest ih =>
    intro acc hg
    obtain ⟨hc1, hc2⟩ := hg c (by simp)
    simp only [normFrom]
    rw [if_neg hc1, if_neg hc2]
    rw [ih (acc ++ [c]) (fun d hd => hg d (by simp [hd]))]
    simp

/-! ## Concrete filesystems and directories used as test inputs -/

/-- A reference tree: `save/a/x`, `save/a/sub/y`, `save/b/z` under the
reference directory `save`. -/
def fsYesBut : FS := ⟨[
  ([], .dir),
  (["save"], .dir),
  (["save", "a"], .dir),
  (["save", "a", "x"], .file),
  (["save", "a", "sub"], .dir),
  (["save", "a", "sub", "y"], .file),
  (["save", "b"], .dir),
  (["save", "b", "z"], .file)]⟩

/-- A reference tree where `save/a/lnk` is a symlink escaping the
reference directory `save` to the outside file `secret`. -/
def fsSymlink : FS := ⟨[
  ([], .dir),
  (["secret"], .file),
  (["save"], .dir),
  (["save", "a"], .dir),
  (["save", "a", "x"], .file),
  (["save", "a", "lnk"], .symlink ["secret"])]⟩

/-- A host tree holding `/etc/passwd` and a game directory
`/home/games`. -/
def fsHost : FS := ⟨[
  ([], .dir),
  (["etc"], .dir),
  (["etc", "passwd"], .file),
  (["home"], .dir),
  (["home", "games"], .dir)]⟩

/-! ## Claim C1 -/

/-- Claim C1 (code bug).  The claim states that when `ensure_executable`
fails during a native launch the Session Lock returns to Idle and the
release callback fires exactly once.  The code does the opposite:
`run_native.run_game` returns from its failure branch without invoking
`on_end`, and `_launch_executable` never clears `self.server.locked`
on that path, so the lock stays Active with zero release invocations —
while on the success path the callback does fire exactly once and the
lock returns to Idle. -/
theorem c1_ensure_failure_lock_stuck :
    launchExecutable false ⟨false, 0⟩ = (⟨true, 0⟩, none) ∧
    launchExecutable true ⟨false, 0⟩ = (⟨false, 1⟩, none) := by
  constructor <;> rfl

/-! ## Claim C2 -/

/-- Claim C2 (code bug).  The claim states the Idle→Active transition is a
single atomic compare-and-set, so at most one session can become Active.
The code's `if self.server.locked: ... / self.server.locked = True` is a
plain read-then-write; under the interleaving where both handler threads
read the lock before either writes it, both spawn a game and neither
receives `command:game-already-running`. -/
theorem c2_lock_race_double_spawn :
    runSched raceInit [true, false, true, true, false, false] =
      { locked := true, pc1 := .spawned, pc2 := .spawned,
        spawns := 2, rejections := 0 } := by
  rfl

/-! ## Claim C3 -/

/-- Claim C3 counterexample.  A filtered store with clause `a` over
scratch `{a ↦ "1"}` deletes the durable file `b` (value `"2"`), which is
not covered by any clause: the unconditional staging chain replaces the
whole durable directory. -/
theorem c3_counterexample :
    Dir.find? (storeDragonsharkSave [(["a"], "1")] [(["b"], "2")] [⟨"a", []⟩]) ["b"]
        = none ∧
      Dir.find? [(["b"], "2")] ["b"] = some "2" := by
  constructor <;> rfl

/-- Claim C3 (corrected).  Each selected path is indeed merged
individually into the durable directory, but the store then runs the
full-replace staging chain unconditionally: whenever the scratch
directory is non-empty, the durable directory afterwards equals the
scratch contents, so durable files not present in the scratch directory
are deleted rather than left unchanged. -/
theorem c3_filtered_store_replaces (scratch durable : Dir)
    (saveFilters : List Clause) (h : scratch ≠ []) :
    storeDragonsharkSave scratch durable saveFilters = scratch := by
  unfold storeDragonsharkSave
  simp [h]

/-- Witness for `c3_filtered_store_replaces` at a concrete non-empty
scratch directory. -/
theorem c3_witness :
    storeDragonsharkSave [(["a"], "1")] [(["b"], "2")] [⟨"a", []⟩] = [(["a"], "1")] :=
  c3_filtered_store_replaces [(["a"], "1")] [(["b"], "2")] [⟨"a", []⟩] (by decide)

/-! ## Claim C6 -/

/-- Claim C6 counterexample.  Storing an *empty* scratch directory with
empty filters is a no-op on the durable directory (the `cp` in the
staging chain fails and the chain stops), so the immediate load refills
the scratch directory with the stale durable contents `{f ↦ "x"}`
instead of reproducing the empty staged state. -/
theorem c6_counterexample :
    loadDragonsharkSave (storeDragonsharkSave [] [(["f"], "x")] []) = [(["f"], "x")] ∧
      [(["f"], "x")] ≠ ([] : Dir) := by
  constructor
  · rfl
  · decide

/-- Claim C6 (corrected).  `store` with empty filters followed immediately
by `load` for the same (package, app) reproduces the scratch contents
staged at store time, provided the scratch directory was non-empty; when
it was empty, the store leaves the durable directory untouched and the
load refills the scratch directory from it. -/
theorem c6_roundtrip_amended (scratch durable : Dir) (h : scratch ≠ []) :
    loadDragonsharkSave (storeDragonsharkSave scratch durable []) = scratch := by
  unfold storeDragonsharkSave loadDragonsharkSave
  simp [h]

/-- Witness for `c6_roundtrip_amended` at a concrete non-empty scratch
directory. -/
theorem c6_witness :
    loadDragonsharkSave (storeDragonsharkSave [(["s"], "d")] [(["f"], "x")] [])
      = [(["s"], "d")] :=
  c6_roundtrip_amended [(["s"], "d")] [(["f"], "x")] (by decide)

/-! ## Claim C5 -/

/-- Claim C5 counterexample.  For `directory = "/etc"`, the command
`"../../etc/passwd"` resolves to `/etc/passwd`, which *does* start with
`/etc/`, so the containment check passes and the request proceeds all
the way to dispatch (of `/etc/passwd` itself!) instead of being rejected
with `command:invalid`. -/
theorem c5_counterexample :
    handle fsHost ⟨"p", "a", "/etc", "../../etc/passwd", none⟩ =
        .launched ["passwd"] ∧
      Resp.launched ["passwd"] ≠ .commandInvalid := by
  constructor
  · rfl
  · decide

/-- The containment check fails on the lexical resolution of
`directory/../../etc/passwd` whenever the resolved directory is neither
the root nor `/etc`. -/
theorem containsCheck_dotdot_etc (d : AbsPath) (h0 : d ≠ []) (h1 : d ≠ ["etc"]) :
    containsCheck d (d.dropLast.dropLast ++ ["etc", "passwd"]) = false := by
  unfold containsCheck
  match d, h0 with
  | [x], _ =>
    by_cases hx : x = "etc"
    · subst hx; exact absurd rfl h1
    · simp [List.isPrefixOf, hx]
  | x :: y :: rest, _ =>
    set l : AbsPath := x :: y :: rest with hl
    set cmd : AbsPath := l.dropLast.dropLast ++ ["etc", "passwd"] with hc
    cases hpre : l.isPrefixOf cmd
    · simp [hpre]
    · have hp' : l <+: cmd := by rwa [← List.isPrefixOf_iff_prefix]
      have hlen : l.length = cmd.length := by
        simp only [hc, List.length_append, List.length_dropLast, hl]
        simp
      have : l = cmd := hp'.eq_of_length hlen
      simp [← this]

/-- Claim C5 (corrected).  On a symlink-free tree, a request whose command
is `"../../etc/passwd"` is rejected with `command:invalid` for every
existing directory whose resolved real path is neither the filesystem
root `/` nor `/etc` — independent of whether `/etc/passwd` exists.  (For
`directory = "/"` or `"/etc"` the resolved command lands inside the
directory, the containment check passes, and no `command:invalid` is
produced; see the counterexample.) -/
theorem c5_traversal_rejected_amended
    (fs : FS) (package app directory : String) (sf : Option (List Clause))
    (hsym : fs.symlinkFree)
    (hp : pyStrip package ≠ "") (ha : pyStrip app ≠ "")
    (hd : pyStrip directory ≠ "")
    (hdir : fs.isDirAt (toPath (pyStrip directory)) = true)
    (hroot : normFrom [] (toPath (pyStrip directory)) ≠ [])
    (hetc : normFrom [] (toPath (pyStrip directory)) ≠ ["etc"]) :
    handle fs ⟨package, app, directory, "../../etc/passwd", sf⟩ =
      .commandInvalid := by
  have hcmd : pyStrip "../../etc/passwd" = "../../etc/passwd" := by decide
  unfold handle
  simp only [hp, ha, hd, hcmd]
  rw [if_neg (by simp [hp, ha, hd, hcmd])]
  rw [if_neg (by simp [hdir])]
  set dirP := toPath (pyStrip directory) with hdp
  have hsplit : toPath "../../etc/passwd" = ["..", "..", "etc", "passwd"] := by
    decide
  rw [hsplit]
  have hre : fs.resolve (dirP ++ ["..", "..", "etc", "passwd"]) =
      some ((normFrom [] dirP).dropLast.dropLast ++ ["etc", "passwd"]) := by
    rw [resolve_symlinkFree fs hsym, normFrom_append]
    have : normFrom (normFrom [] dirP) ["..", "..", "etc", "passwd"] =
        normFrom ((normFrom [] dirP).dropLast.dropLast) ["etc", "passwd"] := by
      simp [normFrom]
    rw [this, normFrom_good _ _ (by decide)]
  rw [hre, resolve_symlinkFree fs hsym]
  simp only [Option.getD_some]
  rw [if_pos]
  rw [containsCheck_dotdot_etc _ hroot hetc]
  rfl

/-- Witness for `c5_traversal_rejected_amended`: the concrete directory
`/home/games` (whose real path is neither `/` nor `/etc`) is rejected
with `command:invalid` even though `/etc/passwd` exists. -/
theorem c5_witness :
    handle fsHost ⟨"p", "a", "/home/games", "../../etc/passwd", none⟩ =
      .commandInvalid :=
  c5_traversal_rejected_amended fsHost "p" "a" "/home/games" none
    (by decide) (by decide) (by decide) (by decide) (by decide)
    (by decide) (by decide)

/-! ## Claim C4 -/

/-- Every element the deduplicating tail yields is the resolved real
path of one of the candidates. -/
theorem dedupResolve_mem (fs : FS) :
    ∀ (cs : List AbsPath) (seen : List AbsPath) (x : AbsPath),
      x ∈ dedupResolve fs seen cs → ∃ c ∈ cs, fs.resolve c = some x := by
  intro cs
  induction cs with
  | nil => intro seen x hx; simp [dedupResolve] at hx
  | cons c rest ih =>
    intro seen x hx
    unfold dedupResolve at hx
    split at hx
    · obtain ⟨c', hc', h2⟩ := ih seen x hx
      exact ⟨c', by simp [hc'], h2⟩
    next cr hr =>
      split at hx
      · obtain ⟨c', hc', h2⟩ := ih seen x hx
        exact ⟨c', by simp [hc'], h2⟩
      · rcases List.mem_cons.mp hx with rfl | h
        · exact ⟨c, by simp, hr⟩
        · obtain ⟨c', hc', h2⟩ := ih (cr :: seen) x h
          exact ⟨c', by simp [hc'], h2⟩

/-- Every admitted yes-root is contained in the reference directory and
exists (its strict resolution succeeded). -/
theorem iterYesRoots_contained (fs : FS) (refDir : AbsPath) (pat : String)
    (r : AbsPath) (hr : r ∈ iterYesRoots fs refDir pat) :
    refDir <+: r ∧ (fs.lookup r).isSome = true := by
  unfold iterYesRoots at hr
  obtain ⟨s, _, heq⟩ := List.mem_filterMap.mp hr
  split at heq
  · simp at heq
  next p hrs =>
    split at heq
    next hpre =>
      obtain rfl : p = r := by simpa using heq
      refine ⟨List.isPrefixOf_iff_prefix.mp hpre, ?_⟩
      unfold FS.resolveStrict at hrs
      split at hrs
      · simp at hrs
      next q _ =>
        split at hrs
        next hq =>
          obtain rfl : q = p := by simpa using hrs
          exact hq
        · simp at hrs
    · simp at heq

/-- A path with an entry in a well-named filesystem has only ordinary
components. -/
theorem lookup_good (fs : FS) (hgood : fs.goodKeys) (r : AbsPath)
    (h : (fs.lookup r).isSome = true) : ∀ c ∈ r, goodName c := by
  unfold FS.lookup at h
  rw [Option.isSome_map'] at h
  rw [Option.isSome_iff_exists] at h
  obtain ⟨e, he⟩ := h
  have hmem := List.mem_of_find?_eq_some he
  have heq : e.1 = r := by
    have := List.find?_some he
    simpa using this
  rw [← heq]
  exact hgood e hmem

/-- A name listed inside a directory is a component of some entry
key. -/
theorem entriesOfDir_mem (fs : FS) (rp : AbsPath) (n : Name)
    (h : n ∈ fs.entriesOfDir rp) : ∃ e ∈ fs.entries, n ∈ e.1 := by
  unfold FS.entriesOfDir at h
  obtain ⟨e, he, heq⟩ := List.mem_filterMap.mp h
  refine ⟨e, he, ?_⟩
  revert heq
  split
  · intro heq
    obtain ⟨hne, rfl⟩ := List.mem_getLast?_eq_getLast heq
    exact List.getLast_mem hne
  · intro heq; simp at heq

/-- Every path produced by the walk extends the walked root by
components drawn from entry keys. -/
theorem walkAux_structure (fs : FS) :
    ∀ (fuel : Nat) (p q : AbsPath), q ∈ fs.walkAux fuel p →
      ∃ s, q = p ++ s ∧ ∀ c ∈ s, ∃ e ∈ fs.entries, c ∈ e.1 := by
  intro fuel
  induction fuel with
  | zero => intro p q hq; simp [FS.walkAux] at hq
  | succ f ih =>
    intro p q hq
    unfold FS.walkAux at hq
    split at hq
    · simp at hq
    next rp hres =>
      simp only [List.mem_append, List.mem_map, List.mem_flatMap] at hq
      rcases hq with (⟨n, hn, rfl⟩ | ⟨n, hn, rfl⟩) | ⟨n, hn, hq2⟩
      · refine ⟨[n], rfl, ?_⟩
        intro c hc
        obtain rfl : c = n := by simpa using hc
        exact entriesOfDir_mem fs rp c (List.mem_of_mem_filter hn)
      · refine ⟨[n], rfl, ?_⟩
        intro c hc
        obtain rfl : c = n := by simpa using hc
        exact entriesOfDir_mem fs rp c (List.mem_of_mem_filter hn)
      · obtain ⟨s', hs1, hs2⟩ := ih (p ++ [n]) q hq2
        refine ⟨n :: s', by simpa using hs1, ?_⟩
        intro c hc
        rcases List.mem_cons.mp hc with rfl | hc'
        · exact entriesOfDir_mem fs rp c
            (List.mem_of_mem_filter (List.mem_of_mem_filter hn))
        · exact hs2 c hc'

/-- As `walkAux_structure`, for the full walk including the root. -/
theorem walkTree_structure (fs : FS) (root q : AbsPath)
    (hq : q ∈ walkTreeIncludingSelf fs root) :
    ∃ s, q = root ++ s ∧ ∀ c ∈ s, ∃ e ∈ fs.entries, c ∈ e.1 := by
  unfold walkTreeIncludingSelf at hq
  rcases List.mem_cons.mp hq with rfl | hq'
  · refine ⟨[], by simp, ?_⟩
    intro c hc
    simp at hc
  · by_cases hdir : fs.isDirAt root = true
    · rw [if_pos hdir] at hq'
      exact walkAux_structure fs _ root q hq'
    · rw [if_neg hdir] at hq'
      simp at hq'

/-- Claim C4 counterexample.  A symlink *inside* a matched directory is
walked as a candidate but never containment-checked: with
`save/a/lnk → /secret`, the clause `yes = "a"` makes `enumerate` yield
the resolved real path `/secret`, which escapes the reference directory
`save`. -/
theorem c4_counterexample :
    ["secret"] ∈ enumerate fsSymlink ["save"] [⟨"a", []⟩] ∧
      ¬ (["save"] : AbsPath) <+: ["secret"] := by
  constructor
  · decide
  · decide

/-- Claim C4 (corrected).  The containment check is applied to the glob
matches only: every admitted yes-root has its resolved real path
contained in `referenceDir` (escaping glob matches and symlinked roots
are silently dropped, never an error), and on a symlink-free tree every
path yielded by `enumerate` is contained in `referenceDir`.  Walk
candidates below a yes-root are *not* re-checked, however, so a
symlinked descendant can be yielded with a real path escaping
`referenceDir` (see the counterexample). -/
theorem c4_containment_amended (fs : FS) (referenceDir : AbsPath)
    (clauses : List Clause) (hsym : fs.symlinkFree) (hgood : fs.goodKeys)
    (href : ∀ c ∈ referenceDir, goodName c) :
    (∀ pat r, r ∈ iterYesRoots fs referenceDir pat → referenceDir <+: r) ∧
      ∀ x ∈ enumerate fs referenceDir clauses, referenceDir <+: x := by
  constructor
  · intro pat r hr
    exact (iterYesRoots_contained fs referenceDir pat r hr).1
  · intro x hx
    unfold enumerate at hx
    rw [resolve_symlinkFree fs hsym, normFrom_good _ _ href] at hx
    simp only [List.nil_append] at hx
    obtain ⟨c, hc, hres⟩ := dedupResolve_mem fs _ [] x hx
    obtain ⟨cl, _, hc2⟩ := List.mem_flatMap.mp hc
    unfold clauseCandidates at hc2
    obtain ⟨root, hroot, hc3⟩ := List.mem_flatMap.mp hc2
    have hc4 := List.mem_of_mem_filter hc3
    obtain ⟨hrootpre, hrootsome⟩ :=
      iterYesRoots_contained fs referenceDir cl.yes root hroot
    have hrootgood := lookup_good fs hgood root hrootsome
    obtain ⟨s, rfl, hs⟩ := walkTree_structure fs root c hc4
    have hcgood : ∀ d ∈ root ++ s, goodName d := by
      intro d hd
      rcases List.mem_append.mp hd with hd' | hd'
      · exact hrootgood d hd'
      · obtain ⟨e, he, hde⟩ := hs d hd'
        exact hgood e he d hde
    rw [resolve_symlinkFree fs hsym, normFrom_good _ _ hcgood] at hres
    obtain rfl : root ++ s = x := by simpa using hres
    exact hrootpre.trans (List.prefix_append root s)

/-- Witness for `c4_containment_amended` on a concrete symlink-free
tree: both conjuncts applied at concrete arguments. -/
theorem c4_witness :
    (["save"] : AbsPath) <+: ["save", "a"] ∧
      (["save"] : AbsPath) <+: ["save", "a", "x"] :=
  ⟨(c4_containment_amended fsYesBut ["save"] [⟨"a", []⟩] (by decide) (by decide)
        (by decide)).1 "a" ["save", "a"] (by decide),
    (c4_containment_amended fsYesBut ["save"] [⟨"a", []⟩] (by decide) (by decide)
        (by decide)).2 ["save", "a", "x"] (by decide)⟩

/-! ## Claim C9 -/

/-- Nothing yielded by the deduplicating tail was already seen. -/
theorem dedupResolve_not_mem (fs : FS) :
    ∀ (cs seen : List AbsPath) (x : AbsPath),
      x ∈ dedupResolve fs seen cs → x ∉ seen := by
  intro cs
  induction cs with
  | nil => intro seen x hx; simp [dedupResolve] at hx
  | cons c rest ih =>
    intro seen x hx
    unfold dedupResolve at hx
    split at hx
    · exact ih seen x hx
    next cr hr =>
      split at hx
      · exact ih seen x hx
      next hseen =>
        rcases List.mem_cons.mp hx with rfl | h
        · exact hseen
        · intro hmem
          exact ih (cr :: seen) x h (by simp [hmem])

/-- The deduplicating tail yields each resolved path at most once. -/
theorem dedupResolve_nodup (fs : FS) :
    ∀ (cs seen : List AbsPath), (dedupResolve fs seen cs).Nodup := by
  intro cs
  induction cs with
  | nil => intro seen; simp [dedupResolve]
  | cons c rest ih =>
    intro seen
    unfold dedupResolve
    split
    · exact ih seen
    next cr hr =>
      split
      · exact ih seen
      next hseen =>
        rw [List.nodup_cons]
        refine ⟨?_, ih (cr :: seen)⟩
        intro hmem
        exact dedupResolve_not_mem fs rest (cr :: seen) cr hmem (by simp)

/-- A path already produced by the resolver: all components ordinary,
no proper prefix a symlink. -/
def selfRes (fs : FS) (q : AbsPath) : Prop :=
  (∀ c ∈ q, goodName c) ∧
  ∀ i, i < q.length → ∀ t, fs.lookup (q.take (i + 1)) ≠ some (.symlink t)

/-- The root is trivially resolver-canonical. -/
theorem selfRes_nil (fs : FS) : selfRes fs [] := by
  constructor
  · intro c hc; simp at hc
  · intro i hi; simp at hi

/-- Dropping the last component preserves canonicity. -/
theorem selfRes_dropLast (fs : FS) (q : AbsPath) (h : selfRes fs q) :
    selfRes fs q.dropLast := by
  obtain ⟨h1, h2⟩ := h
  constructor
  · intro c hc
    exact h1 c (List.dropLast_sublist q |>.mem hc)
  · intro i hi t
    rw [List.length_dropLast] at hi
    rw [List.dropLast_eq_take, List.take_take]
    have : min (i + 1) (q.length - 1) = i + 1 := by omega
    rw [this]
    exact h2 i (by omega) t

/-- Appending an ordinary, non-symlink component preserves
canonicity. -/
theorem selfRes_push (fs : FS) (acc : AbsPath) (c : Name)
    (h : selfRes fs acc) (hc : goodName c)
    (hl : ∀ t, fs.lookup (acc ++ [c]) ≠ some (.symlink t)) :
    selfRes fs (acc ++ [c]) := by
  obtain ⟨h1, h2⟩ := h
  constructor
  · intro d hd
    rcases List.mem_append.mp hd with hd' | hd'
    · exact h1 d hd'
    · obtain rfl : d = c := by simpa using hd'
      exact hc
  · intro i hi t
    simp only [List.length_append, List.length_singleton] at hi
    by_cases hlt : i < acc.length
    · rw [List.take_append_of_le_length (by omega)]
      exact h2 i hlt t
    · obtain rfl : i = acc.length := by omega
      have : (acc ++ [c]).take (acc.length + 1) = acc ++ [c] := by simp
      rw [this]
      exact hl t

/-- Whatever the resolver outputs is canonical. -/
theorem resolveAux_selfRes (fs : FS) :
    ∀ (fuel : Nat) (p acc r : AbsPath), selfRes fs acc →
      resolveAux fs fuel acc p = some r → selfRes fs r := by
  intro fuel
  induction fuel with
  | zero => intro p acc r _ h; simp [resolveAux] at h
  | succ f ih =>
    intro p acc r hacc h
    cases p with
    | nil =>
      obtain rfl : acc = r := by simpa [resolveAux] using h
      exact hacc
    | cons c rest =>
      rw [resolveAux] at h
      by_cases h1 : c = ".."
      · rw [if_pos h1] at h
        exact ih rest acc.dropLast r (selfRes_dropLast fs acc hacc) h
      · rw [if_neg h1] at h
        by_cases h2 : c = "."
        · rw [if_pos h2] at h
          exact ih rest acc r hacc h
        · rw [if_neg h2] at h
          split at h
          next t hsym =>
            split at h
            · simp at h
            next acc2 hres2 =>
              exact ih rest acc2 r (resolveAux_selfRes_target f ih t acc2 hres2) h
          next hnosym =>
            refine ih rest (acc ++ [c]) r ?_ h
            refine selfRes_push fs acc c hacc ⟨h1, h2⟩ ?_
            intro t heq
            exact hnosym t heq
where
  /-- The symlink target's resolution starts from the canonical root. -/
  resolveAux_selfRes_target (f : Nat)
      (ih : ∀ (p acc r : AbsPath), selfRes fs acc →
        resolveAux fs f acc p = some r → selfRes fs r)
      (t acc2 : AbsPath) (hres2 : resolveAux fs f [] t = some acc2) :
      selfRes fs acc2 :=
    ih t [] acc2 (selfRes_nil fs) hres2

/-- A canonical path resolves to itself (with any sufficient fuel). -/
theorem resolveAux_of_selfRes (fs : FS) :
    ∀ (rest : AbsPath) (fuel : Nat) (acc : AbsPath), rest.length < fuel →
      (∀ c ∈ rest, goodName c) →
      (∀ i, i < rest.length → ∀ t,
        fs.lookup (acc ++ rest.take (i + 1)) ≠ some (.symlink t)) →
      resolveAux fs fuel acc rest = some (acc ++ rest) := by
  intro rest
  induction rest with
  | nil =>
    intro fuel acc hf _ _
    cases fuel with
    | zero => omega
    | succ f => simp [resolveAux]
  | cons c rs ih =>
    intro fuel acc hf hg hl
    cases fuel with
    | zero => simp at hf
    | succ f =>
      obtain ⟨hc1, hc2⟩ := hg c (by simp)
      rw [resolveAux, if_neg hc1, if_neg hc2]
      split
      next t hsym =>
        exact absurd (by simpa using hsym) (hl 0 (by simp) t)
      next =>
        have := ih f (acc ++ [c]) (by simp at hf ⊢; omega)
          (fun d hd => hg d (by simp [hd]))
          (by
            intro i hi t
            have := hl (i + 1) (by simp; omega) t
            simpa [List.append_assoc] using this)
        simpa [List.append_assoc] using this

/-- The resolver is idempotent: resolving an already resolved real path
returns it unchanged. -/
theorem resolve_idem (fs : FS) (c x : AbsPath) (h : fs.resolve c = some x) :
    fs.resolve x = some x := by
  have hx : selfRes fs x := resolveAux_selfRes fs _ c [] x (selfRes_nil fs) h
  unfold FS.resolve
  have hfuel : x.length < fs.fuel x := by
    unfold FS.fuel
    generalize (fs.entries.length + 1) * (fs.entries.length + x.length + 1) = X
    omega
  have := resolveAux_of_selfRes fs x (fs.fuel x) [] hfuel hx.1
    (by intro i hi t; simpa using hx.2 i hi t)
  simpa using this

/-- Claim C9 (confirmed).  The sequence produced by `enumerate` is
duplicate-free, and since each element is the resolver's own output the
resolver is idempotent on it, so no two elements share a resolved real
path; two clauses matching the same path yield it exactly once. -/
theorem c9_dedup :
    (∀ (fs : FS) (referenceDir : AbsPath) (clauses : List Clause),
        (enumerate fs referenceDir clauses).Nodup) ∧
      (∀ (fs : FS) (referenceDir : AbsPath) (clauses : List Clause)
          (x y : AbsPath), x ∈ enumerate fs referenceDir clauses →
          y ∈ enumerate fs referenceDir clauses →
          fs.resolve x = fs.resolve y → x = y) ∧
      (enumerate fsYesBut ["save"] [⟨"a/x", []⟩, ⟨"a/x", []⟩]).count
          ["save", "a", "x"] = 1 := by
  refine ⟨?_, ?_, by decide⟩
  · intro fs referenceDir clauses
    unfold enumerate
    split
    · simp
    · exact dedupResolve_nodup fs _ []
  · intro fs referenceDir clauses x y hx hy hres
    have hx' : fs.resolve x = some x := by
      unfold enumerate at hx
      split at hx
      · simp at hx
      · obtain ⟨c, _, hc⟩ := dedupResolve_mem fs _ [] x hx
        exact resolve_idem fs c x hc
    have hy' : fs.resolve y = some y := by
      unfold enumerate at hy
      split at hy
      · simp at hy
      · obtain ⟨c, _, hc⟩ := dedupResolve_mem fs _ [] y hy
        exact resolve_idem fs c y hc
    rw [hx', hy'] at hres
    simpa using hres

/-- Witness for `c9_dedup`: the two identical clauses of the concrete
run yield equal elements only when they are the same element. -/
theorem c9_witness :
    (enumerate fsYesBut ["save"] [⟨"a/x", []⟩, ⟨"a/x", []⟩]).Nodup ∧
      (["save", "a", "x"] : AbsPath) = ["save", "a", "x"] :=
  ⟨c9_dedup.1 fsYesBut ["save"] [⟨"a/x", []⟩, ⟨"a/x", []⟩],
    c9_dedup.2.1 fsYesBut ["save"] [⟨"a/x", []⟩, ⟨"a/x", []⟩]
      ["save", "a", "x"] ["save", "a", "x"] (by decide) (by decide) rfl⟩

/-! ## Claim C8 -/

/-- A lone `**` segment matches every component list. -/
theorem globMatchSegs_star (ns : List Name) :
    globMatchSegs ["**"] ns = true := by
  simp only [globMatchSegs, if_pos]
  rw [List.any_eq_true]
  refine ⟨[], ?_, rfl⟩
  rw [List.mem_tails]
  exact List.nil_suffix

/-- Appending a `**` segment extends any match over a whole subtree:
if the pattern matches `pre`, the `/**`-suffixed pattern matches
`pre ++ suf` for every `suf`. -/
theorem globMatchSegs_star_suffix :
    ∀ (ss : List String) (pre suf : List Name),
      globMatchSegs ss pre = true →
      globMatchSegs (ss ++ ["**"]) (pre ++ suf) = true := by
  intro ss
  induction ss with
  | nil =>
    intro pre suf h
    obtain rfl : pre = [] := by
      simpa [globMatchSegs, List.isEmpty_iff] using h
    simpa using globMatchSegs_star suf
  | cons p ps ih =>
    intro pre suf h
    simp only [globMatchSegs] at h
    by_cases hp : p = "**"
    · rw [if_pos hp] at h
      rw [List.any_eq_true] at h
      obtain ⟨t, ht, hmatch⟩ := h
      have hsuffix : t <:+ pre := by
        rwa [List.mem_tails] at ht
      obtain ⟨w, rfl⟩ := hsuffix
      rw [List.cons_append]
      simp only [globMatchSegs]
      rw [if_pos hp, List.any_eq_true]
      refine ⟨t ++ suf, ?_, ih t suf hmatch⟩
      rw [List.mem_tails]
      exact ⟨w, by simp⟩
    · rw [if_neg hp] at h
      cases pre with
      | nil => simp at h
      | cons n pre' =>
        simp only [Bool.and_eq_true] at h
        rw [List.cons_append, List.cons_append]
        simp only [globMatchSegs]
        rw [if_neg hp]
        simp only [Bool.and_eq_true]
        exact ⟨h.1, ih pre' suf h.2⟩

/-- Claim C8 (confirmed).  A BUT pattern excludes a candidate whose path
relative to the reference directory matches it exactly, or extends a
match of it by arbitrary further components (the pattern taken as a
directory prefix over the whole subtree); concretely, the clause
`yes = "a"`, `but = ["a/sub"]` keeps `a` and `a/x` but excludes `a/sub`
and everything below it. -/
theorem c8_but_exclusion :
    (∀ (fs : FS) (refDir cand : AbsPath) (butPats : List String)
        (bp : String) (rel : List Name), bp ∈ butPats →
        posixRelpathUnder fs refDir cand = some rel →
        (globMatchSegs (patSegsOf bp) rel = true ∨
          ∃ pre suf, rel = pre ++ suf ∧ globMatchSegs (patSegsOf bp) pre = true) →
        matchesAnyBut fs refDir cand butPats = true) ∧
      (["save", "a"] ∈ enumerate fsYesBut ["save"] [⟨"a", ["a/sub"]⟩] ∧
        ["save", "a", "x"] ∈ enumerate fsYesBut ["save"] [⟨"a", ["a/sub"]⟩] ∧
        ["save", "a", "sub"] ∉ enumerate fsYesBut ["save"] [⟨"a", ["a/sub"]⟩] ∧
        ["save", "a", "sub", "y"] ∉
          enumerate fsYesBut ["save"] [⟨"a", ["a/sub"]⟩]) := by
  refine ⟨?_, by decide, by decide, by decide, by decide⟩
  intro fs refDir cand butPats bp rel hbp hrel hcase
  unfold matchesAnyBut
  rw [hrel]
  rw [List.any_eq_true]
  refine ⟨bp, hbp, ?_⟩
  rcases hcase with h | ⟨pre, suf, rfl, h⟩
  · rw [h]; rfl
  · rw [globMatchSegs_star_suffix (patSegsOf bp) pre suf h]
    simp

/-- Witness for `c8_but_exclusion`: the concrete descendant
`save/a/sub/y` of the excluded subtree `a/sub` is excluded by
`_matches_any_but`. -/
theorem c8_witness :
    matchesAnyBut fsYesBut ["save"] ["save", "a", "sub", "y"] ["a/sub"] = true :=
  c8_but_exclusion.1 fsYesBut ["save"] ["save", "a", "sub", "y"] ["a/sub"]
    "a/sub" ["a", "sub", "y"] (by decide) (by decide)
    (Or.inr ⟨["a", "sub"], ["y"], rfl, by decide⟩)

/-! ## Claim C7 -/

/-- Claim C7 (confirmed).  The hold threshold is 6 ticks (3 seconds at
2 Hz); a controller holding both designated buttons for exactly that
many consecutive ticks causes one kill invocation and immediate loop
termination (remaining trace unprocessed); a tick without the combined
hold removes that controller's counter entirely; and when the loop
reaches a tick at which the liveness predicate is false without a kill
having fired, it exits with zero kill invocations. -/
theorem c7_watchdog :
    HOTKEY_HOLD_CHECK_TIME = 3 * TICKS_PER_SECOND ∧
      HOTKEY_HOLD_CHECK_TIME = 6 ∧
      (∀ (p : String) (rest : List (Bool × List String)),
        hotkeyLoop []
            (List.replicate HOTKEY_HOLD_CHECK_TIME (true, [p]) ++ rest) =
          (.killed, 1, [(p, HOTKEY_HOLD_CHECK_TIME)])) ∧
      (∀ (pads : Pads) (holding : List String) (p : String), p ∉ holding →
        ∀ pads', hotkeyStep pads holding = .inl pads' →
          List.find? (fun e => e.1 = p) pads' = none) ∧
      (∀ (t1 : List (Bool × List String)) (pads pads' : Pads),
        hotkeyLoop pads t1 = (.traceEnd, 0, pads') →
        ∀ (holding : List String) (rest : List (Bool × List String)),
          hotkeyLoop pads (t1 ++ (false, holding) :: rest) =
            (.liveFalse, 0, pads')) := by
  refine ⟨rfl, rfl, ?_, ?_, ?_⟩
  · intro p rest
    show hotkeyLoop [] (List.replicate 6 (true, [p]) ++ rest) = _
    simp [hotkeyLoop, hotkeyStep, processHolding, setPad,
      HOTKEY_HOLD_CHECK_TIME, TICKS_PER_SECOND, List.replicate]
  · intro pads holding p hp pads' hstep
    unfold hotkeyStep at hstep
    split at hstep
    · simp at hstep
    next q hq =>
      obtain rfl : q.filter (fun e => e.1 ∈ holding) = pads' := by
        simpa using hstep
      rw [List.find?_eq_none]
      intro e he heq
      have hmem : e.1 ∈ holding := by
        have := (List.mem_filter.mp he).2
        simpa using this
      obtain rfl : e.1 = p := by simpa using heq
      exact hp hmem
  · intro t1
    induction t1 with
    | nil =>
      intro pads pads' h holding rest
      obtain rfl : pads = pads' := by
        simpa [hotkeyLoop] using h
      simp [hotkeyLoop]
    | cons tick t1' ih =>
      intro pads pads' h holding rest
      obtain ⟨alive, hold⟩ := tick
      rw [hotkeyLoop] at h
      by_cases ha : alive = true
      · subst ha
        simp only [Bool.not_true] at h
        rw [if_neg (by simp)] at h
        rw [List.cons_append, hotkeyLoop]
        rw [if_neg (by simp)]
        split at h
        · simp at h
        next pads'' hstep =>
          exact ih pads'' pads' h holding rest
      · obtain rfl : alive = false := by simpa using ha
        rw [if_pos (by simp)] at h
        simp at h


/-- Witness for `c7_watchdog`: a concrete six-tick hold kills once; a
concrete released controller loses its counter; a concrete trace ending
in a dead liveness tick exits without a kill. -/
theorem c7_witness :
    hotkeyLoop [] (List.replicate HOTKEY_HOLD_CHECK_TIME (true, ["P"]) ++ []) =
        (.killed, 1, [("P", HOTKEY_HOLD_CHECK_TIME)]) ∧
      List.find? (fun e => e.1 = "P") [("Q", 2)] = none ∧
      hotkeyLoop [] ([(true, [])] ++ (false, ["P"]) :: []) =
        (.liveFalse, 0, []) :=
  ⟨c7_watchdog.2.2.1 "P" [],
    c7_watchdog.2.2.2.1 [("P", 5), ("Q", 1)] ["Q"] "P" (by decide)
      [("Q", 2)] (by decide),
    c7_watchdog.2.2.2.2 [(true, [])] [] [] (by decide) ["P"] []⟩

/-! ## Claim C10 -/

/-- With no clauses there is nothing to select. -/
theorem enumerate_nil_clauses (fs : FS) (referenceDir : AbsPath) :
    enumerate fs referenceDir [] = [] := by
  unfold enumerate
  cases fs.resolve referenceDir <;> simp [dedupResolve]

/-- Claim C10 (confirmed).  The blank-check in `handle` looks only at the
four string fields, so a request whose `save_filters` is `null` (or the
empty list) is never rejected with `request:format`; the native launch
path normalizes `save_filters or []`, and a store with the resulting
empty clause list performs no filtered copy and takes the full-replace
staging path. -/
theorem c10_null_filters :
    (∀ (fs : FS) (req : LaunchRequest),
        pyStrip req.package ≠ "" → pyStrip req.app ≠ "" →
        pyStrip req.directory ≠ "" → pyStrip req.command ≠ "" →
        handle fs req ≠ .requestFormat) ∧
    normalizeFilters none = [] ∧
    normalizeFilters (some []) = [] ∧
    (∀ scratch durable : Dir,
        storeDragonsharkSave scratch durable (normalizeFilters none) =
          if scratch = [] then durable else scratch) := by
  refine ⟨?_, rfl, rfl, ?_⟩
  · intro fs req hp ha hd hc
    unfold handle
    simp only [hp, ha, hd, hc, decide_False, Bool.or_false, Bool.false_or,
      Bool.false_eq_true, if_false]
    split
    · simp
    · split
      · simp
      · split <;> simp
  · intro scratch durable
    unfold storeDragonsharkSave storeSelectedRels normalizeFilters
    rw [enumerate_nil_clauses]
    rfl

/-- Witness for `c10_null_filters`: a concrete request with `null`
filters passes the format check, and the concrete store takes the
full-replace branch. -/
theorem c10_witness :
    handle fsHost ⟨"com.example", "game", "/home/games", "run.sh", none⟩ ≠
        .requestFormat ∧
      storeDragonsharkSave [(["a"], "1")] [(["b"], "2")] (normalizeFilters none) =
        if ([(["a"], "1")] : Dir) = [] then [(["b"], "2")] else [(["a"], "1")] :=
  ⟨c10_null_filters.1 fsHost ⟨"com.example", "game", "/home/games", "run.sh", none⟩
      (by decide) (by decide) (by decide) (by decide),
    c10_null_filters.2.2.2 [(["a"], "1")] [(["b"], "2")]⟩

end Launcher
